import Mathlib

/-!
Verification of the lexical scanner in src/lexer.rs of the zero2prod
repository, as a shallow embedding.  The Rust input string is modelled as
a list of Unicode scalar values (Lean Char); the Rust byte length of the
input is recovered through the UTF-8 size of each character, because the
source compares its char-counting cursor against the byte length and
slices the input at byte indices.  Rust panics (unwrap of None in
peek_next, slicing a str at a non-character-boundary, unwrap of a failed
integer parse) are modelled by Option, with none standing for a panic.
-/

namespace Zero2Prod

/-- Modelled from the Rust standard library: char::is_whitespace is the
Unicode White_Space property, written here on code points.  This list is
the complete White_Space set. -/
def isRustWhitespace (c : Char) : Bool :=
  decide (c.toNat = 0x9 ∨ c.toNat = 0xA ∨ c.toNat = 0xB ∨ c.toNat = 0xC ∨
    c.toNat = 0xD ∨ c.toNat = 0x20 ∨ c.toNat = 0x85 ∨ c.toNat = 0xA0 ∨
    c.toNat = 0x1680 ∨ (0x2000 ≤ c.toNat ∧ c.toNat ≤ 0x200A) ∨
    c.toNat = 0x2028 ∨ c.toNat = 0x2029 ∨ c.toNat = 0x202F ∨
    c.toNat = 0x205F ∨ c.toNat = 0x3000)

/-- Modelled from the Rust standard library: char::is_alphabetic is the
Unicode Alphabetic property.  The model is exact on ASCII and on the
Latin-1 Supplement block; code points above U+00FF are classified
non-alphabetic (no theorem in this file depends on the Alphabetic status
of a code point above U+00FF). -/
def isRustAlphabetic (c : Char) : Bool :=
  decide ((0x41 ≤ c.toNat ∧ c.toNat ≤ 0x5A) ∨ (0x61 ≤ c.toNat ∧ c.toNat ≤ 0x7A) ∨
    c.toNat = 0xAA ∨ c.toNat = 0xB5 ∨ c.toNat = 0xBA ∨
    (0xC0 ≤ c.toNat ∧ c.toNat ≤ 0xFF ∧ c.toNat ≠ 0xD7 ∧ c.toNat ≠ 0xF7))

/-- Modelled from the Rust standard library: char::is_digit(10), the ASCII
decimal digits. -/
def isDigit10 (c : Char) : Bool := decide (0x30 ≤ c.toNat ∧ c.toNat ≤ 0x39)

/-- Modelled from the Rust standard library: char::len_utf8. -/
def charBytes (c : Char) : Nat :=
  if c.toNat < 0x80 then 1 else if c.toNat < 0x800 then 2
  else if c.toNat < 0x10000 then 3 else 4

/-- Modelled from the Rust standard library: str::len, the UTF-8 byte
count of the modelled string. -/
def byteLen (s : List Char) : Nat := (s.map charBytes).sum

/-- The token type of src/lexer.rs.  Ident carries the borrowed slice as a
list of characters. -/
inductive Token where
  | Assign | Comma | Semicolon | LParen | RParen | LBrace | RBrace
  | Plus | Minus | Asterisk | Slash
  | LT | GT | Bang
  | LTE | GTE | Eq | NotEq
  | Ident (s : List Char)
  | Int (v : Int)
  | Function | Let | True | False | If | Else | Return
  | Illegal | EOF
deriving DecidableEq

/-- The scanner state of src/lexer.rs: input buffer, current position,
next read position, and the character under the cursor. -/
structure Lexer where
  input : List Char
  position : Nat
  read_position : Nat
  ch : Char
deriving DecidableEq

/-- Lexer::read_char.  The source compares read_position (which counts
characters read) against input.len() (a byte count), and otherwise reads
chars().nth(read_position) with unwrap_or-default of the NUL sentinel. -/
def read_char (l : Lexer) : Lexer :=
  { input := l.input
    position := l.read_position
    read_position := l.read_position + 1
    ch := if byteLen l.input ≤ l.read_position then '\x00'
          else (l.input[l.read_position]?).getD '\x00' }

/-- Lexer::new: zero-initialised state followed by one read_char. -/
def Lexer.new (input : List Char) : Lexer :=
  read_char { input := input, position := 0, read_position := 0, ch := '\x00' }

/-- Lexer::peek_next.  The source returns the NUL sentinel when
read_position is at least input.len() (bytes), and otherwise calls
chars().nth(read_position).unwrap(); none models the panic of that unwrap
when the char index is out of range although the byte check passed. -/
def peek_next (l : Lexer) : Option Char :=
  if byteLen l.input ≤ l.read_position then some '\x00'
  else l.input[l.read_position]?

/-- Character predicate of the read_word loop in the source:
is_alphabetic() or an underscore. -/
def isWordChar (c : Char) : Bool := isRustAlphabetic c || decide (c = '_')

/-- Termination measure for the scanner's three character-consuming
loops: once read_position passes the byte length the cursor character
becomes the NUL sentinel, which none of the loop predicates accept. -/
def lexM (p : Char → Bool) (l : Lexer) : Nat :=
  (byteLen l.input + 1 - l.read_position) + (if p l.ch then 1 else 0)

lemma lexM_dec (p : Char → Bool) (hp : p '\x00' = false) (l : Lexer)
    (h : p l.ch = true) : lexM p (read_char l) < lexM p l := by
  unfold lexM read_char
  split_ifs <;> simp_all <;> omega

/-- The whitespace-skipping loop at the top of Lexer::next_token. -/
def skip_whitespace (l : Lexer) : Lexer :=
  if h : isRustWhitespace l.ch then skip_whitespace (read_char l) else l
termination_by lexM isRustWhitespace l
decreasing_by exact lexM_dec _ (by decide) _ h

/-- The character-consuming loop of Lexer::read_word. -/
def word_loop (l : Lexer) : Lexer :=
  if h : isWordChar l.ch then word_loop (read_char l) else l
termination_by lexM isWordChar l
decreasing_by exact lexM_dec _ (by decide) _ h

/-- The digit-consuming loop of Lexer::read_int. -/
def int_loop (l : Lexer) : Lexer :=
  if h : isDigit10 l.ch then int_loop (read_char l) else l
termination_by lexM isDigit10 l
decreasing_by exact lexM_dec _ (by decide) _ h

/-- Helper of byteSlice: take a prefix of j bytes, none when j is not a
character boundary or exceeds the byte length. -/
def takeBytes : List Char → Nat → Option (List Char)
  | _, 0 => some []
  | [], _ + 1 => none
  | c :: cs, j + 1 =>
    if j + 1 < charBytes c then none
    else (takeBytes cs (j + 1 - charBytes c)).map (fun t => c :: t)

/-- Modelled from Rust str slicing input[i..j] at byte indices: some
slice when i ≤ j, both are character boundaries, and j is at most the
byte length; none models the slicing panic. -/
def byteSlice : List Char → Nat → Nat → Option (List Char)
  | s, 0, j => if j < 0 then none else takeBytes s j
  | [], _ + 1, _ => none
  | c :: cs, i + 1, j =>
    if j < i + 1 then none
    else if i + 1 < charBytes c then none
    else byteSlice cs (i + 1 - charBytes c) (j - charBytes c)

/-- Base-10 accumulation as performed by the integer parser. -/
def digitsVal (s : List Char) : Nat :=
  s.foldl (fun a c => a * 10 + (c.toNat - 0x30)) 0

/-- Unsigned branch of the modelled i64 parse. -/
def parsePosDigits (s : List Char) : Option Int :=
  if s ≠ [] ∧ s.all isDigit10 then
    if digitsVal s ≤ 9223372036854775807 then some (digitsVal s) else none
  else none

/-- Negative branch of the modelled i64 parse. -/
def parseNegDigits (s : List Char) : Option Int :=
  if s ≠ [] ∧ s.all isDigit10 then
    if digitsVal s ≤ 9223372036854775808 then some (-(digitsVal s : Int)) else none
  else none

/-- Modelled from the Rust standard library: str::parse::<i64>.  An
optional sign followed by a nonempty run of decimal digits whose value
fits the 64-bit signed range; none models Err (and hence the unwrap panic
at the call site in read_int). -/
def parseI64 (s : List Char) : Option Int :=
  match s with
  | [] => none
  | c :: rest =>
    if c = '+' then parsePosDigits rest
    else if c = '-' then parseNegDigits rest
    else parsePosDigits (c :: rest)

/-- The keyword table match at the end of Lexer::read_word, in source
order. -/
def keywordOrIdent (s : List Char) : Token :=
  if s = "fn".toList then Token.Function
  else if s = "let".toList then Token.Let
  else if s = "true".toList then Token.True
  else if s = "if".toList then Token.If
  else if s = "else".toList then Token.Else
  else if s = "false".toList then Token.False
  else if s = "return".toList then Token.Return
  else Token.Ident s

/-- Lexer::read_word: remember the start position, consume the word run,
slice the input between the two byte positions and classify the slice. -/
def read_word (l : Lexer) : Option (Token × Lexer) :=
  let idx := l.position
  let l2 := word_loop l
  match byteSlice l2.input idx l2.position with
  | none => none
  | some s => some (keywordOrIdent s, l2)

/-- Lexer::read_int: remember the start position, consume the digit run,
slice the input between the two byte positions and parse it as i64. -/
def read_int (l : Lexer) : Option (Token × Lexer) :=
  let idx := l.position
  let l2 := int_loop l
  match byteSlice l2.input idx l2.position with
  | none => none
  | some s =>
    match parseI64 s with
    | none => none
    | some v => some (Token.Int v, l2)

/-- Lexer::next_token.  The Rust match is rendered as a first-match
if-chain in the source's arm order; every arm other than read_word and
read_int falls through to the trailing read_char. -/
def next_token (l0 : Lexer) : Option (Token × Lexer) :=
  let l := skip_whitespace l0
  if l.ch = ',' then some (Token.Comma, read_char l)
  else if l.ch = ';' then some (Token.Semicolon, read_char l)
  else if l.ch = '(' then some (Token.LParen, read_char l)
  else if l.ch = ')' then some (Token.RParen, read_char l)
  else if l.ch = '{' then some (Token.LBrace, read_char l)
  else if l.ch = '}' then some (Token.RBrace, read_char l)
  else if l.ch = '+' then some (Token.Plus, read_char l)
  else if l.ch = '-' then some (Token.Minus, read_char l)
  else if l.ch = '*' then some (Token.Asterisk, read_char l)
  else if l.ch = '/' then some (Token.Slash, read_char l)
  else if l.ch = '>' then
    match peek_next l with
    | none => none
    | some c2 =>
      if c2 = '=' then some (Token.GTE, read_char (read_char l))
      else some (Token.GT, read_char l)
  else if l.ch = '<' then
    match peek_next l with
    | none => none
    | some c2 =>
      if c2 = '=' then some (Token.LTE, read_char (read_char l))
      else some (Token.LT, read_char l)
  else if l.ch = '!' then
    match peek_next l with
    | none => none
    | some c2 =>
      if c2 = '=' then some (Token.NotEq, read_char (read_char l))
      else some (Token.Bang, read_char l)
  else if l.ch = '=' then
    match peek_next l with
    | none => none
    | some c2 =>
      if c2 = '=' then some (Token.Eq, read_char (read_char l))
      else some (Token.Assign, read_char l)
  else if isRustAlphabetic l.ch then read_word l
  else if isDigit10 l.ch then read_int l
  else if l.ch = '\x00' then some (Token.EOF, read_char l)
  else some (Token.Illegal, read_char l)

/-- The n-th token produced by repeated next_token calls (zero-indexed);
none models a panic on the way. -/
def runN (l : Lexer) : Nat → Option (Token × Lexer)
  | 0 => next_token l
  | n + 1 =>
    match next_token l with
    | none => none
    | some (_, l') => runN l' n

lemma skip_whitespace_eq (l : Lexer) :
    skip_whitespace l =
      if isRustWhitespace l.ch then skip_whitespace (read_char l) else l := by
  by_cases hc : isRustWhitespace l.ch
  · rw [skip_whitespace, dif_pos hc, if_pos hc]
  · rw [skip_whitespace, dif_neg hc, if_neg hc]

lemma word_loop_eq (l : Lexer) :
    word_loop l = if isWordChar l.ch then word_loop (read_char l) else l := by
  by_cases hc : isWordChar l.ch
  · rw [word_loop, dif_pos hc, if_pos hc]
  · rw [word_loop, dif_neg hc, if_neg hc]

lemma int_loop_eq (l : Lexer) :
    int_loop l = if isDigit10 l.ch then int_loop (read_char l) else l := by
  by_cases hc : isDigit10 l.ch
  · rw [int_loop, dif_pos hc, if_pos hc]
  · rw [int_loop, dif_neg hc, if_neg hc]

/-- Fuel-based executable form of the character-consuming loops; with
fuel at least the termination measure it coincides with them, which makes
concrete runs of the scanner computable by the kernel. -/
def scanF (p : Char → Bool) : Nat → Lexer → Lexer
  | 0, l => l
  | fuel + 1, l => if p l.ch then scanF p fuel (read_char l) else l

lemma loop_eq_scanF (p : Char → Bool) (f : Lexer → Lexer) (hp : p '\x00' = false)
    (hf : ∀ l, f l = if p l.ch then f (read_char l) else l) :
    ∀ fuel l, lexM p l ≤ fuel → f l = scanF p fuel l := by
  intro fuel
  induction fuel with
  | zero =>
    intro l hl
    by_cases hc : p l.ch = true
    · exfalso
      unfold lexM at hl
      rw [hc, if_pos rfl] at hl
      omega
    · rw [hf l, if_neg hc]
      rfl
  | succ n ih =>
    intro l hl
    by_cases hc : p l.ch = true
    · have hd := lexM_dec p hp l hc
      have hn : lexM p (read_char l) ≤ n := by omega
      rw [hf l, if_pos hc, ih (read_char l) hn]
      show scanF p n (read_char l) = scanF p (n + 1) l
      simp only [scanF]
      rw [if_pos hc]
    · rw [hf l, if_neg hc]
      show l = scanF p (n + 1) l
      simp only [scanF]
      rw [if_neg hc]

/-- Executable twin of skip_whitespace. -/
def skipF (l : Lexer) : Lexer := scanF isRustWhitespace (lexM isRustWhitespace l) l

/-- Executable twin of word_loop. -/
def word_loopF (l : Lexer) : Lexer := scanF isWordChar (lexM isWordChar l) l

/-- Executable twin of int_loop. -/
def int_loopF (l : Lexer) : Lexer := scanF isDigit10 (lexM isDigit10 l) l

lemma skip_whitespace_eqF (l : Lexer) : skip_whitespace l = skipF l :=
  loop_eq_scanF _ _ (by decide) skip_whitespace_eq _ l (Nat.le_refl _)

lemma word_loop_eqF (l : Lexer) : word_loop l = word_loopF l :=
  loop_eq_scanF _ _ (by decide) word_loop_eq _ l (Nat.le_refl _)

lemma int_loop_eqF (l : Lexer) : int_loop l = int_loopF l :=
  loop_eq_scanF _ _ (by decide) int_loop_eq _ l (Nat.le_refl _)

/-- Executable twin of read_word. -/
def read_wordF (l : Lexer) : Option (Token × Lexer) :=
  let idx := l.position
  let l2 := word_loopF l
  match byteSlice l2.input idx l2.position with
  | none => none
  | some s => some (keywordOrIdent s, l2)

/-- Executable twin of read_int. -/
def read_intF (l : Lexer) : Option (Token × Lexer) :=
  let idx := l.position
  let l2 := int_loopF l
  match byteSlice l2.input idx l2.position with
  | none => none
  | some s =>
    match parseI64 s with
    | none => none
    | some v => some (Token.Int v, l2)

lemma read_word_eqF (l : Lexer) : read_word l = read_wordF l := by
  unfold read_word read_wordF
  rw [word_loop_eqF]

lemma read_int_eqF (l : Lexer) : read_int l = read_intF l := by
  unfold read_int read_intF
  rw [int_loop_eqF]

/-- Executable twin of next_token. -/
def next_tokenF (l0 : Lexer) : Option (Token × Lexer) :=
  let l := skipF l0
  if l.ch = ',' then some (Token.Comma, read_char l)
  else if l.ch = ';' then some (Token.Semicolon, read_char l)
  else if l.ch = '(' then some (Token.LParen, read_char l)
  else if l.ch = ')' then some (Token.RParen, read_char l)
  else if l.ch = '{' then some (Token.LBrace, read_char l)
  else if l.ch = '}' then some (Token.RBrace, read_char l)
  else if l.ch = '+' then some (Token.Plus, read_char l)
  else if l.ch = '-' then some (Token.Minus, read_char l)
  else if l.ch = '*' then some (Token.Asterisk, read_char l)
  else if l.ch = '/' then some (Token.Slash, read_char l)
  else if l.ch = '>' then
    match peek_next l with
    | none => none
    | some c2 =>
      if c2 = '=' then some (Token.GTE, read_char (read_char l))
      else some (Token.GT, read_char l)
  else if l.ch = '<' then
    match peek_next l with
    | none => none
    | some c2 =>
      if c2 = '=' then some (Token.LTE, read_char (read_char l))
      else some (Token.LT, read_char l)
  else if l.ch = '!' then
    match peek_next l with
    | none => none
    | some c2 =>
      if c2 = '=' then some (Token.NotEq, read_char (read_char l))
      else some (Token.Bang, read_char l)
  else if l.ch = '=' then
    match peek_next l with
    | none => none
    | some c2 =>
      if c2 = '=' then some (Token.Eq, read_char (read_char l))
      else some (Token.Assign, read_char l)
  else if isRustAlphabetic l.ch then read_wordF l
  else if isDigit10 l.ch then read_intF l
  else if l.ch = '\x00' then some (Token.EOF, read_char l)
  else some (Token.Illegal, read_char l)

lemma next_token_eqF (l0 : Lexer) : next_token l0 = next_tokenF l0 := by
  unfold next_token next_tokenF
  simp only [skip_whitespace_eqF, read_word_eqF, read_int_eqF]

/-- Executable twin of runN. -/
def runNF (l : Lexer) : Nat → Option (Token × Lexer)
  | 0 => next_tokenF l
  | n + 1 =>
    match next_tokenF l with
    | none => none
    | some (_, l') => runNF l' n

lemma runN_eqF (l : Lexer) (n : Nat) : runN l n = runNF l n := by
  induction n generalizing l with
  | zero => exact next_token_eqF l
  | succ n ih =>
    unfold runN runNF
    rw [next_token_eqF]
    cases next_tokenF l with
    | none => rfl
    | some tl => exact ih tl.2

/-- The character at position n of the buffer, or the NUL sentinel past
the end. -/
def chAt (s : List Char) (n : Nat) : Char := (s[n]?).getD '\x00'

/-- All characters of the buffer are ASCII; on such inputs the source's
byte counts and character counts coincide. -/
abbrev Ascii (s : List Char) : Prop := ∀ c ∈ s, c.toNat < 128

/-- Cursor consistency over an ASCII buffer: one character of lookahead
and the cursor character agreeing with the buffer at the current
position. -/
abbrev Inv (l : Lexer) : Prop :=
  l.read_position = l.position + 1 ∧ l.ch = chAt l.input l.position ∧ Ascii l.input

lemma ascii_charBytes {c : Char} (h : c.toNat < 128) : charBytes c = 1 := by
  unfold charBytes
  rw [if_pos (by omega)]

lemma ascii_byteLen {s : List Char} (h : Ascii s) : byteLen s = s.length := by
  induction s with
  | nil => rfl
  | cons c t ih =>
    have hc : c.toNat < 128 := h c (List.mem_cons_self c t)
    have ht : Ascii t := fun x hx => h x (List.mem_cons_of_mem _ hx)
    unfold byteLen at *
    rw [List.map_cons, List.sum_cons, ih ht, ascii_charBytes hc, List.length_cons]
    omega

lemma read_char_spec {l : Lexer} (h : Inv l) :
    read_char l =
      { input := l.input, position := l.position + 1,
        read_position := l.position + 2, ch := chAt l.input (l.position + 1) } := by
  obtain ⟨h1, h2, h3⟩ := h
  unfold read_char
  simp only [Lexer.mk.injEq]
  refine ⟨trivial, by omega, by omega, ?_⟩
  rw [h1, ascii_byteLen h3]
  by_cases hlen : l.input.length ≤ l.position + 1
  · rw [if_pos hlen]
    unfold chAt
    rw [List.getElem?_eq_none hlen]
    rfl
  · rw [if_neg hlen]
    rfl

lemma inv_read_char {l : Lexer} (h : Inv l) : Inv (read_char l) := by
  rw [read_char_spec h]
  exact ⟨rfl, rfl, h.2.2⟩

lemma inv_new {input : List Char} (h : Ascii input) : Inv (Lexer.new input) := by
  refine ⟨rfl, ?_, h⟩
  show (Lexer.new input).ch = chAt input 0
  unfold Lexer.new read_char
  simp only
  by_cases hb : byteLen input ≤ 0
  · rw [if_pos hb]
    cases input with
    | nil => rfl
    | cons c t =>
      exfalso
      rw [ascii_byteLen h] at hb
      simp at hb
  · rw [if_neg hb]
    rfl

/-- On a consistent ASCII state, any of the scanner's character-consuming
loops lands exactly at the end of the maximal run of characters
satisfying its predicate and re-establishes cursor consistency. -/
lemma loop_run (p : Char → Bool) (hp : p '\x00' = false) (f : Lexer → Lexer)
    (hf : ∀ l, f l = if p l.ch then f (read_char l) else l) :
    ∀ n (l : Lexer), Inv l → ((l.input.drop l.position).takeWhile p).length = n →
      f l = { input := l.input, position := l.position + n,
              read_position := l.position + n + 1, ch := chAt l.input (l.position + n) } := by
  intro n
  induction n with
  | zero =>
    intro l hInv hlen
    obtain ⟨h1, h2, h3⟩ := hInv
    have hc : ¬ p l.ch = true := by
      intro hcc
      by_cases hpos : l.position < l.input.length
      · rw [h2] at hcc
        unfold chAt at hcc
        rw [List.getElem?_eq_getElem hpos, Option.getD_some] at hcc
        rw [List.drop_eq_getElem_cons hpos, List.takeWhile_cons_of_pos hcc] at hlen
        simp at hlen
      · rw [h2] at hcc
        unfold chAt at hcc
        rw [List.getElem?_eq_none (by omega)] at hcc
        simp only [Option.getD_none] at hcc
        rw [hp] at hcc
        exact Bool.false_ne_true hcc
    rw [hf l, if_neg hc]
    simp only [Nat.add_zero]
    rw [← h1, ← h2]
  | succ n ih =>
    intro l hInv hlen
    obtain ⟨h1, h2, h3⟩ := hInv
    have hpos : l.position < l.input.length := by
      by_contra hcc
      rw [List.drop_eq_nil_of_le (by omega)] at hlen
      simp at hlen
    have hch : l.ch = l.input[l.position] := by
      rw [h2]
      unfold chAt
      rw [List.getElem?_eq_getElem hpos]
      rfl
    rw [List.drop_eq_getElem_cons hpos, List.takeWhile_cons] at hlen
    by_cases hc : p l.input[l.position] = true
    · rw [if_pos hc, List.length_cons] at hlen
      have hlen' : ((l.input.drop (l.position + 1)).takeWhile p).length = n := by omega
      rw [hf l, if_pos (by rw [hch]; exact hc)]
      have hrc := read_char_spec ⟨h1, h2, h3⟩
      have hihpre : (((read_char l).input.drop (read_char l).position).takeWhile p).length = n := by
        rw [hrc]
        exact hlen'
      rw [ih (read_char l) (inv_read_char ⟨h1, h2, h3⟩) hihpre, hrc]
      simp only [Lexer.mk.injEq]
      refine ⟨trivial, by omega, by omega, ?_⟩
      congr 1
      omega
    · rw [if_neg hc] at hlen
      simp at hlen

lemma takeBytes_ascii {s : List Char} (h : Ascii s) :
    ∀ j, j ≤ s.length → takeBytes s j = some (s.take j) := by
  induction s with
  | nil =>
    intro j hj
    have hj0 : j = 0 := by simpa using hj
    subst hj0
    rfl
  | cons c t ih =>
    intro j hj
    cases j with
    | zero => rfl
    | succ jj =>
      have hc : charBytes c = 1 := ascii_charBytes (h c (List.mem_cons_self c t))
      have ht : Ascii t := fun x hx => h x (List.mem_cons_of_mem _ hx)
      rw [List.length_cons] at hj
      unfold takeBytes
      rw [hc, if_neg (by omega)]
      have e1 : jj + 1 - 1 = jj := by omega
      rw [e1, ih ht jj (by omega)]
      rfl

lemma byteSlice_ascii {s : List Char} (h : Ascii s) :
    ∀ i j, i ≤ j → j ≤ s.length → byteSlice s i j = some ((s.drop i).take (j - i)) := by
  induction s with
  | nil =>
    intro i j hij hj
    have hj0 : j = 0 := by simpa using hj
    have hi0 : i = 0 := by omega
    subst hj0
    subst hi0
    rfl
  | cons c t ih =>
    intro i j hij hj
    have hc : charBytes c = 1 := ascii_charBytes (h c (List.mem_cons_self c t))
    have ht : Ascii t := fun x hx => h x (List.mem_cons_of_mem _ hx)
    rw [List.length_cons] at hj
    cases i with
    | zero =>
      show (if j < 0 then none else takeBytes (c :: t) j) = _
      rw [if_neg (by omega), takeBytes_ascii h j (by rw [List.length_cons]; omega)]
      simp
    | succ ii =>
      show (if j < ii + 1 then none
            else if ii + 1 < charBytes c then none
            else byteSlice t (ii + 1 - charBytes c) (j - charBytes c)) = _
      rw [hc, if_neg (by omega), if_neg (by omega)]
      have e1 : ii + 1 - 1 = ii := by omega
      rw [e1, ih ht ii (j - 1) (by omega) (by omega)]
      have e2 : j - 1 - ii = j - (ii + 1) := by omega
      rw [e2]
      rfl

lemma skip_noop {l : Lexer} (h : isRustWhitespace l.ch = false) :
    skip_whitespace l = l := by
  rw [skip_whitespace_eq, if_neg (by simp [h])]

lemma alpha_not_ws {c : Char} (h : isRustAlphabetic c = true) :
    isRustWhitespace c = false := by
  unfold isRustAlphabetic at h
  unfold isRustWhitespace
  rw [decide_eq_true_eq] at h
  rw [decide_eq_false_iff_not]
  omega

lemma digit_not_ws {c : Char} (h : isDigit10 c = true) :
    isRustWhitespace c = false := by
  unfold isDigit10 at h
  unfold isRustWhitespace
  rw [decide_eq_true_eq] at h
  rw [decide_eq_false_iff_not]
  omega

lemma digit_not_alpha {c : Char} (h : isDigit10 c = true) :
    isRustAlphabetic c = false := by
  unfold isDigit10 at h
  unfold isRustAlphabetic
  rw [decide_eq_true_eq] at h
  rw [decide_eq_false_iff_not]
  omega

lemma alpha_ne_special {c : Char} (h : isRustAlphabetic c = true) :
    c ≠ ',' ∧ c ≠ ';' ∧ c ≠ '(' ∧ c ≠ ')' ∧ c ≠ '{' ∧ c ≠ '}' ∧ c ≠ '+' ∧ c ≠ '-' ∧
    c ≠ '*' ∧ c ≠ '/' ∧ c ≠ '>' ∧ c ≠ '<' ∧ c ≠ '!' ∧ c ≠ '=' := by
  refine ⟨?_, ?_, ?_, ?_, ?_, ?_, ?_, ?_, ?_, ?_, ?_, ?_, ?_, ?_⟩ <;>
    (intro heq; rw [heq] at h; revert h; decide)

lemma digit_ne_special {c : Char} (h : isDigit10 c = true) :
    c ≠ ',' ∧ c ≠ ';' ∧ c ≠ '(' ∧ c ≠ ')' ∧ c ≠ '{' ∧ c ≠ '}' ∧ c ≠ '+' ∧ c ≠ '-' ∧
    c ≠ '*' ∧ c ≠ '/' ∧ c ≠ '>' ∧ c ≠ '<' ∧ c ≠ '!' ∧ c ≠ '=' := by
  refine ⟨?_, ?_, ?_, ?_, ?_, ?_, ?_, ?_, ?_, ?_, ?_, ?_, ?_, ?_⟩ <;>
    (intro heq; rw [heq] at h; revert h; decide)

lemma alpha_ne_nul {c : Char} (h : isRustAlphabetic c = true) : c ≠ '\x00' := by
  intro heq
  rw [heq] at h
  revert h
  decide

lemma digit_ne_nul {c : Char} (h : isDigit10 c = true) : c ≠ '\x00' := by
  intro heq
  rw [heq] at h
  revert h
  decide

lemma pos_lt_of_ch {l : Lexer} (hInv : Inv l) (h : l.ch ≠ '\x00') :
    l.position < l.input.length := by
  by_contra hcc
  apply h
  rw [hInv.2.1]
  unfold chAt
  rw [List.getElem?_eq_none (by omega)]
  rfl

/-- On a consistent ASCII state whose cursor character is alphabetic,
next_token dispatches to read_word. -/
lemma next_token_word {l : Lexer} (hInv : Inv l) (ha : isRustAlphabetic l.ch = true) :
    next_token l = read_word l := by
  obtain ⟨n1, n2, n3, n4, n5, n6, n7, n8, n9, n10, n11, n12, n13, n14⟩ := alpha_ne_special ha
  simp only [next_token]
  rw [skip_noop (alpha_not_ws ha)]
  rw [if_neg n1, if_neg n2, if_neg n3, if_neg n4, if_neg n5, if_neg n6, if_neg n7,
    if_neg n8, if_neg n9, if_neg n10, if_neg n11, if_neg n12, if_neg n13, if_neg n14,
    if_pos ha]

/-- On a consistent ASCII state whose cursor character is a decimal
digit, next_token dispatches to read_int. -/
lemma next_token_int {l : Lexer} (hInv : Inv l) (hd : isDigit10 l.ch = true) :
    next_token l = read_int l := by
  obtain ⟨n1, n2, n3, n4, n5, n6, n7, n8, n9, n10, n11, n12, n13, n14⟩ := digit_ne_special hd
  simp only [next_token]
  rw [skip_noop (digit_not_ws hd)]
  rw [if_neg n1, if_neg n2, if_neg n3, if_neg n4, if_neg n5, if_neg n6, if_neg n7,
    if_neg n8, if_neg n9, if_neg n10, if_neg n11, if_neg n12, if_neg n13, if_neg n14,
    if_neg (by simp [digit_not_alpha hd]), if_pos hd]

/-- read_word on a consistent ASCII state: the maximal run of alphabetic
characters and underscores starting at the cursor is consumed, sliced
exactly, and classified by the keyword table. -/
lemma read_word_run {l : Lexer} (hInv : Inv l) (ha : isRustAlphabetic l.ch = true) :
    read_word l =
      some (keywordOrIdent ((l.input.drop l.position).takeWhile isWordChar),
        { input := l.input,
          position := l.position + ((l.input.drop l.position).takeWhile isWordChar).length,
          read_position :=
            l.position + ((l.input.drop l.position).takeWhile isWordChar).length + 1,
          ch := chAt l.input
            (l.position + ((l.input.drop l.position).takeWhile isWordChar).length) }) := by
  have hrun := loop_run isWordChar (by decide) word_loop word_loop_eq
    ((l.input.drop l.position).takeWhile isWordChar).length l hInv rfl
  have hpos : l.position < l.input.length := pos_lt_of_ch hInv (alpha_ne_nul ha)
  have hkle : ((l.input.drop l.position).takeWhile isWordChar).length ≤
      l.input.length - l.position := by
    have h1 := (List.takeWhile_prefix (l := l.input.drop l.position) isWordChar).length_le
    rw [List.length_drop] at h1
    exact h1
  have hslice := byteSlice_ascii hInv.2.2 l.position
    (l.position + ((l.input.drop l.position).takeWhile isWordChar).length)
    (by omega) (by omega)
  have e1 : l.position + ((l.input.drop l.position).takeWhile isWordChar).length - l.position
      = ((l.input.drop l.position).takeWhile isWordChar).length := by omega
  rw [e1] at hslice
  have e2 : (l.input.drop l.position).take
        ((l.input.drop l.position).takeWhile isWordChar).length
      = (l.input.drop l.position).takeWhile isWordChar :=
    (List.prefix_iff_eq_take.mp (List.takeWhile_prefix _)).symm
  rw [e2] at hslice
  simp only [read_word, hrun]
  rw [hslice]

lemma all_digits_takeWhile (s : List Char) :
    (s.takeWhile isDigit10).all isDigit10 = true :=
  List.all_eq_true.mpr fun _ hx => List.mem_takeWhile_imp hx

lemma parseI64_digits {s : List Char} (hall : s.all isDigit10 = true) :
    parseI64 s = parsePosDigits s := by
  cases s with
  | nil => rfl
  | cons c rest =>
    have hc : isDigit10 c = true :=
      List.all_eq_true.mp hall c (List.mem_cons_self c rest)
    have hplus : c ≠ '+' := by
      intro heq
      rw [heq] at hc
      revert hc
      decide
    have hminus : c ≠ '-' := by
      intro heq
      rw [heq] at hc
      revert hc
      decide
    simp only [parseI64]
    rw [if_neg hplus, if_neg hminus]

/-- read_int on a consistent ASCII state: the maximal digit run starting
at the cursor is consumed and sliced exactly, and parsing fails exactly
when its value exceeds the i64 maximum. -/
lemma read_int_run {l : Lexer} (hInv : Inv l) (hd : isDigit10 l.ch = true) :
    read_int l =
      if digitsVal ((l.input.drop l.position).takeWhile isDigit10) ≤ 9223372036854775807
      then some (Token.Int (digitsVal ((l.input.drop l.position).takeWhile isDigit10)),
        { input := l.input,
          position := l.position + ((l.input.drop l.position).takeWhile isDigit10).length,
          read_position :=
            l.position + ((l.input.drop l.position).takeWhile isDigit10).length + 1,
          ch := chAt l.input
            (l.position + ((l.input.drop l.position).takeWhile isDigit10).length) })
      else none := by
  have hrun := loop_run isDigit10 (by decide) int_loop int_loop_eq
    ((l.input.drop l.position).takeWhile isDigit10).length l hInv rfl
  have hpos : l.position < l.input.length := pos_lt_of_ch hInv (digit_ne_nul hd)
  have hkle : ((l.input.drop l.position).takeWhile isDigit10).length ≤
      l.input.length - l.position := by
    have h1 := (List.takeWhile_prefix (l := l.input.drop l.position) isDigit10).length_le
    rw [List.length_drop] at h1
    exact h1
  have hslice := byteSlice_ascii hInv.2.2 l.position
    (l.position + ((l.input.drop l.position).takeWhile isDigit10).length)
    (by omega) (by omega)
  have e1 : l.position + ((l.input.drop l.position).takeWhile isDigit10).length - l.position
      = ((l.input.drop l.position).takeWhile isDigit10).length := by omega
  rw [e1] at hslice
  have e2 : (l.input.drop l.position).take
        ((l.input.drop l.position).takeWhile isDigit10).length
      = (l.input.drop l.position).takeWhile isDigit10 :=
    (List.prefix_iff_eq_take.mp (List.takeWhile_prefix _)).symm
  rw [e2] at hslice
  have hne : (l.input.drop l.position).takeWhile isDigit10 ≠ [] := by
    have hch : l.ch = l.input[l.position] := by
      rw [hInv.2.1]
      unfold chAt
      rw [List.getElem?_eq_getElem hpos]
      rfl
    rw [List.drop_eq_getElem_cons hpos, List.takeWhile_cons_of_pos (by rw [← hch]; exact hd)]
    exact List.cons_ne_nil _ _
  have hparse := parseI64_digits (all_digits_takeWhile (l.input.drop l.position))
  simp only [read_int, hrun, hslice]
  rw [hparse]
  unfold parsePosDigits
  rw [if_pos ⟨hne, all_digits_takeWhile (l.input.drop l.position)⟩]
  by_cases hfit :
      digitsVal ((l.input.drop l.position).takeWhile isDigit10) ≤ 9223372036854775807
  · rw [if_pos hfit, if_pos hfit]
  · rw [if_neg hfit, if_neg hfit]

/-- Whenever the cursor character is the NUL sentinel, next_token emits
EOF and still performs the trailing read_char, for any input and cursor
position. -/
lemma eof_emit {l : Lexer} (h0 : l.ch = '\x00') :
    next_token l = some (Token.EOF, read_char l) := by
  simp only [next_token]
  rw [skip_noop (by rw [h0]; decide)]
  rw [if_neg (by rw [h0]; decide), if_neg (by rw [h0]; decide),
    if_neg (by rw [h0]; decide), if_neg (by rw [h0]; decide),
    if_neg (by rw [h0]; decide), if_neg (by rw [h0]; decide),
    if_neg (by rw [h0]; decide), if_neg (by rw [h0]; decide),
    if_neg (by rw [h0]; decide), if_neg (by rw [h0]; decide),
    if_neg (by rw [h0]; decide), if_neg (by rw [h0]; decide),
    if_neg (by rw [h0]; decide), if_neg (by rw [h0]; decide),
    if_neg (by rw [h0]; decide), if_neg (by rw [h0]; decide),
    if_pos h0]

/-- One step out of the terminal state: EOF is emitted and the successor
state is terminal again, with position and read_position each one
higher. -/
lemma terminal_step {l : Lexer} (h0 : l.ch = '\x00')
    (h1 : byteLen l.input ≤ l.read_position) :
    next_token l = some (Token.EOF, read_char l) ∧ (read_char l).ch = '\x00' ∧
    byteLen (read_char l).input ≤ (read_char l).read_position ∧
    (read_char l).position = l.read_position ∧
    (read_char l).read_position = l.read_position + 1 ∧
    (read_char l).input = l.input := by
  refine ⟨eof_emit h0, ?_, ?_, rfl, rfl, rfl⟩
  · show (if byteLen l.input ≤ l.read_position then '\x00'
      else (l.input[l.read_position]?).getD '\x00') = '\x00'
    rw [if_pos h1]
  · show byteLen l.input ≤ l.read_position + 1
    omega

/-- States reachable from construction: one character of lookahead, and
the sentinel on the cursor once the position passes the character count.
Unlike Inv this holds for arbitrary, not only ASCII, inputs. -/
abbrev Reach (l : Lexer) : Prop :=
  l.read_position = l.position + 1 ∧ (l.input.length ≤ l.position → l.ch = '\x00')

lemma reach_read_char (l : Lexer) : Reach (read_char l) := by
  refine ⟨rfl, ?_⟩
  intro hlen
  show (if byteLen l.input ≤ l.read_position then '\x00'
    else (l.input[l.read_position]?).getD '\x00') = '\x00'
  by_cases hb : byteLen l.input ≤ l.read_position
  · rw [if_pos hb]
  · have hlen2 : l.input.length ≤ l.read_position := hlen
    rw [if_neg hb, List.getElem?_eq_none hlen2]
    rfl

lemma reach_new (input : List Char) : Reach (Lexer.new input) := reach_read_char _

/-- A loop that was entered with its guard true ends in a state produced
by read_char, hence with one character of lookahead. -/
lemma loop_rp (p : Char → Bool) (hp : p '\x00' = false) (f : Lexer → Lexer)
    (hf : ∀ l, f l = if p l.ch then f (read_char l) else l) :
    ∀ l, p l.ch = true → (f l).read_position = (f l).position + 1 := by
  have H : ∀ n l, lexM p l ≤ n → p l.ch = true →
      (f l).read_position = (f l).position + 1 := by
    intro n
    induction n with
    | zero =>
      intro l hl hg
      exfalso
      unfold lexM at hl
      rw [hg, if_pos rfl] at hl
      omega
    | succ n ih =>
      intro l hl hg
      have hd := lexM_dec p hp l hg
      rw [hf l, if_pos hg]
      by_cases hg2 : p (read_char l).ch = true
      · exact ih (read_char l) (by omega) hg2
      · rw [hf (read_char l), if_neg hg2]
        rfl
  exact fun l hg => H (lexM p l) l (Nat.le_refl _) hg

/-- The scanner's loops preserve reachability, never move the position
backwards, and do not touch the input buffer. -/
lemma loop_reach (p : Char → Bool) (hp : p '\x00' = false) (f : Lexer → Lexer)
    (hf : ∀ l, f l = if p l.ch then f (read_char l) else l) :
    ∀ l, Reach l → Reach (f l) ∧ l.position ≤ (f l).position ∧ (f l).input = l.input := by
  have H : ∀ n l, lexM p l ≤ n → Reach l →
      Reach (f l) ∧ l.position ≤ (f l).position ∧ (f l).input = l.input := by
    intro n
    induction n with
    | zero =>
      intro l hl hr
      have hc : ¬ p l.ch = true := by
        intro hcc
        unfold lexM at hl
        rw [hcc, if_pos rfl] at hl
        omega
      rw [hf l, if_neg hc]
      exact ⟨hr, Nat.le_refl _, rfl⟩
    | succ n ih =>
      intro l hl hr
      by_cases hc : p l.ch = true
      · have hd := lexM_dec p hp l hc
        have h2 := ih (read_char l) (by omega) (reach_read_char l)
        rw [hf l, if_pos hc]
        refine ⟨h2.1, ?_, ?_⟩
        · have e : (read_char l).position = l.read_position := rfl
          have h3 := h2.2.1
          rw [e, hr.1] at h3
          omega
        · rw [h2.2.2]
          rfl
      · rw [hf l, if_neg hc]
        exact ⟨hr, Nat.le_refl _, rfl⟩
  exact fun l hr => H (lexM p l) l (Nat.le_refl _) hr

/-- A loop entered from a reachable state with its guard true strictly
advances the position. -/
lemma loop_progress (p : Char → Bool) (hp : p '\x00' = false) (f : Lexer → Lexer)
    (hf : ∀ l, f l = if p l.ch then f (read_char l) else l)
    (l : Lexer) (hr : Reach l) (hg : p l.ch = true) :
    l.position + 1 ≤ (f l).position := by
  rw [hf l, if_pos hg]
  have h2 := (loop_reach p hp f hf (read_char l) (reach_read_char l)).2.1
  have e : (read_char l).position = l.read_position := rfl
  rw [e, hr.1] at h2
  exact h2

/-- Any successful next_token call produces its result state by a
trailing read_char, by the two read_chars of a two-character operator, or
by one of the two scanning loops entered with a true guard. -/
lemma next_token_shape {l : Lexer} {t : Token} {l' : Lexer}
    (h : next_token l = some (t, l')) :
    l' = read_char (skip_whitespace l) ∨
    l' = read_char (read_char (skip_whitespace l)) ∨
    (l' = word_loop (skip_whitespace l) ∧ isWordChar (skip_whitespace l).ch = true) ∨
    (l' = int_loop (skip_whitespace l) ∧ isDigit10 (skip_whitespace l).ch = true) := by
  simp only [next_token] at h
  by_cases c1 : (skip_whitespace l).ch = ','
  · rw [if_pos c1] at h
    exact Or.inl (congrArg Prod.snd (Option.some.inj h)).symm
  rw [if_neg c1] at h
  by_cases c2 : (skip_whitespace l).ch = ';'
  · rw [if_pos c2] at h
    exact Or.inl (congrArg Prod.snd (Option.some.inj h)).symm
  rw [if_neg c2] at h
  by_cases c3 : (skip_whitespace l).ch = '('
  · rw [if_pos c3] at h
    exact Or.inl (congrArg Prod.snd (Option.some.inj h)).symm
  rw [if_neg c3] at h
  by_cases c4 : (skip_whitespace l).ch = ')'
  · rw [if_pos c4] at h
    exact Or.inl (congrArg Prod.snd (Option.some.inj h)).symm
  rw [if_neg c4] at h
  by_cases c5 : (skip_whitespace l).ch = '{'
  · rw [if_pos c5] at h
    exact Or.inl (congrArg Prod.snd (Option.some.inj h)).symm
  rw [if_neg c5] at h
  by_cases c6 : (skip_whitespace l).ch = '}'
  · rw [if_pos c6] at h
    exact Or.inl (congrArg Prod.snd (Option.some.inj h)).symm
  rw [if_neg c6] at h
  by_cases c7 : (skip_whitespace l).ch = '+'
  · rw [if_pos c7] at h
    exact Or.inl (congrArg Prod.snd (Option.some.inj h)).symm
  rw [if_neg c7] at h
  by_cases c8 : (skip_whitespace l).ch = '-'
  · rw [if_pos c8] at h
    exact Or.inl (congrArg Prod.snd (Option.some.inj h)).symm
  rw [if_neg c8] at h
  by_cases c9 : (skip_whitespace l).ch = '*'
  · rw [if_pos c9] at h
    exact Or.inl (congrArg Prod.snd (Option.some.inj h)).symm
  rw [if_neg c9] at h
  by_cases c10 : (skip_whitespace l).ch = '/'
  · rw [if_pos c10] at h
    exact Or.inl (congrArg Prod.snd (Option.some.inj h)).symm
  rw [if_neg c10] at h
  by_cases c11 : (skip_whitespace l).ch = '>'
  · rw [if_pos c11] at h
    rcases hpk : peek_next (skip_whitespace l) with _ | c2
    · rw [hpk] at h
      exact Option.noConfusion h
    · rw [hpk] at h
      have h2 : (if c2 = '=' then
          some (Token.GTE, read_char (read_char (skip_whitespace l)))
        else some (Token.GT, read_char (skip_whitespace l))) = some (t, l') := h
      by_cases he : c2 = '='
      · rw [if_pos he] at h2
        exact Or.inr (Or.inl (congrArg Prod.snd (Option.some.inj h2)).symm)
      rw [if_neg he] at h2
      exact Or.inl (congrArg Prod.snd (Option.some.inj h2)).symm
  rw [if_neg c11] at h
  by_cases c12 : (skip_whitespace l).ch = '<'
  · rw [if_pos c12] at h
    rcases hpk : peek_next (skip_whitespace l) with _ | c2
    · rw [hpk] at h
      exact Option.noConfusion h
    · rw [hpk] at h
      have h2 : (if c2 = '=' then
          some (Token.LTE, read_char (read_char (skip_whitespace l)))
        else some (Token.LT, read_char (skip_whitespace l))) = some (t, l') := h
      by_cases he : c2 = '='
      · rw [if_pos he] at h2
        exact Or.inr (Or.inl (congrArg Prod.snd (Option.some.inj h2)).symm)
      rw [if_neg he] at h2
      exact Or.inl (congrArg Prod.snd (Option.some.inj h2)).symm
  rw [if_neg c12] at h
  by_cases c13 : (skip_whitespace l).ch = '!'
  · rw [if_pos c13] at h
    rcases hpk : peek_next (skip_whitespace l) with _ | c2
    · rw [hpk] at h
      exact Option.noConfusion h
    · rw [hpk] at h
      have h2 : (if c2 = '=' then
          some (Token.NotEq, read_char (read_char (skip_whitespace l)))
        else some (Token.Bang, read_char (skip_whitespace l))) = some (t, l') := h
      by_cases he : c2 = '='
      · rw [if_pos he] at h2
        exact Or.inr (Or.inl (congrArg Prod.snd (Option.some.inj h2)).symm)
      rw [if_neg he] at h2
      exact Or.inl (congrArg Prod.snd (Option.some.inj h2)).symm
  rw [if_neg c13] at h
  by_cases c14 : (skip_whitespace l).ch = '='
  · rw [if_pos c14] at h
    rcases hpk : peek_next (skip_whitespace l) with _ | c2
    · rw [hpk] at h
      exact Option.noConfusion h
    · rw [hpk] at h
      have h2 : (if c2 = '=' then
          some (Token.Eq, read_char (read_char (skip_whitespace l)))
        else some (Token.Assign, read_char (skip_whitespace l))) = some (t, l') := h
      by_cases he : c2 = '='
      · rw [if_pos he] at h2
        exact Or.inr (Or.inl (congrArg Prod.snd (Option.some.inj h2)).symm)
      rw [if_neg he] at h2
      exact Or.inl (congrArg Prod.snd (Option.some.inj h2)).symm
  rw [if_neg c14] at h
  by_cases c15 : isRustAlphabetic (skip_whitespace l).ch = true
  · rw [if_pos c15] at h
    have hw : l' = word_loop (skip_whitespace l) := by
      simp only [read_word] at h
      rcases hbs : byteSlice (word_loop (skip_whitespace l)).input
          (skip_whitespace l).position (word_loop (skip_whitespace l)).position with _ | s
      · rw [hbs] at h
        exact Option.noConfusion h
      · rw [hbs] at h
        have h2 : some (keywordOrIdent s, word_loop (skip_whitespace l)) = some (t, l') := h
        exact (congrArg Prod.snd (Option.some.inj h2)).symm
    refine Or.inr (Or.inr (Or.inl ⟨hw, ?_⟩))
    unfold isWordChar
    rw [c15]
    rfl
  rw [if_neg c15] at h
  by_cases c16 : isDigit10 (skip_whitespace l).ch = true
  · rw [if_pos c16] at h
    have hw : l' = int_loop (skip_whitespace l) := by
      simp only [read_int] at h
      rcases hbs : byteSlice (int_loop (skip_whitespace l)).input
          (skip_whitespace l).position (int_loop (skip_whitespace l)).position with _ | s
      · rw [hbs] at h
        exact Option.noConfusion h
      · rw [hbs] at h
        have h2 : (match parseI64 s with
            | none => none
            | some v => some (Token.Int v, int_loop (skip_whitespace l)))
            = some (t, l') := h
        rcases hps : parseI64 s with _ | v
        · rw [hps] at h2
          exact Option.noConfusion h2
        · rw [hps] at h2
          have h3 : some (Token.Int v, int_loop (skip_whitespace l)) = some (t, l') := h2
          exact (congrArg Prod.snd (Option.some.inj h3)).symm
    exact Or.inr (Or.inr (Or.inr ⟨hw, c16⟩))
  rw [if_neg c16] at h
  by_cases c17 : (skip_whitespace l).ch = '\x00'
  · rw [if_pos c17] at h
    exact Or.inl (congrArg Prod.snd (Option.some.inj h)).symm
  rw [if_neg c17] at h
  exact Or.inl (congrArg Prod.snd (Option.some.inj h)).symm

/-- Every successful next_token call leaves one character of lookahead. -/
lemma next_token_rp {l : Lexer} {t : Token} {l' : Lexer}
    (h : next_token l = some (t, l')) : l'.read_position = l'.position + 1 := by
  rcases next_token_shape h with h1 | h1 | ⟨h1, hg⟩ | ⟨h1, hg⟩
  · rw [h1]; rfl
  · rw [h1]; rfl
  · rw [h1]
    exact loop_rp isWordChar (by decide) word_loop word_loop_eq _ hg
  · rw [h1]
    exact loop_rp isDigit10 (by decide) int_loop int_loop_eq _ hg

/-- A successful next_token call from a reachable state strictly advances
the position, preserves reachability and does not touch the input. -/
lemma next_token_step {l : Lexer} {t : Token} {l' : Lexer} (hr : Reach l)
    (h : next_token l = some (t, l')) :
    Reach l' ∧ l.position + 1 ≤ l'.position ∧ l'.input = l.input := by
  obtain ⟨hrs, hps, his⟩ :=
    loop_reach isRustWhitespace (by decide) skip_whitespace skip_whitespace_eq l hr
  rcases next_token_shape h with h1 | h1 | ⟨h1, hg⟩ | ⟨h1, hg⟩
  · subst h1
    refine ⟨reach_read_char _, ?_, his⟩
    have e : (read_char (skip_whitespace l)).position
        = (skip_whitespace l).read_position := rfl
    rw [e, hrs.1]
    omega
  · subst h1
    refine ⟨reach_read_char _, ?_, his⟩
    have e : (read_char (read_char (skip_whitespace l))).position
        = (skip_whitespace l).read_position + 1 := rfl
    rw [e, hrs.1]
    omega
  · subst h1
    obtain ⟨hr2, hp2, hi2⟩ :=
      loop_reach isWordChar (by decide) word_loop word_loop_eq _ hrs
    have hstrict :=
      loop_progress isWordChar (by decide) word_loop word_loop_eq _ hrs hg
    refine ⟨hr2, by omega, ?_⟩
    rw [hi2]
    exact his
  · subst h1
    obtain ⟨hr2, hp2, hi2⟩ :=
      loop_reach isDigit10 (by decide) int_loop int_loop_eq _ hrs
    have hstrict :=
      loop_progress isDigit10 (by decide) int_loop int_loop_eq _ hrs hg
    refine ⟨hr2, by omega, ?_⟩
    rw [hi2]
    exact his

/-- peek_next on a consistent ASCII state returns the character after the
cursor, or the sentinel at the end, and never panics. -/
lemma peek_spec {l : Lexer} (hInv : Inv l) :
    peek_next l = some (chAt l.input (l.position + 1)) := by
  unfold peek_next
  rw [hInv.1, ascii_byteLen hInv.2.2]
  by_cases hb : l.input.length ≤ l.position + 1
  · rw [if_pos hb]
    unfold chAt
    rw [List.getElem?_eq_none hb]
    rfl
  · rw [if_neg hb]
    unfold chAt
    rw [List.getElem?_eq_getElem (by omega)]
    rfl

/-- Claim C9: after construction via new(input) and after every completed
next_token call, the scanner satisfies read_position = position + 1 (one
character of lookahead), for every input string. -/
theorem C9_lookahead_invariant (input : List Char) (l : Lexer) (t : Token)
    (l' : Lexer) (h : next_token l = some (t, l')) :
    (Lexer.new input).read_position = (Lexer.new input).position + 1 ∧
    l'.read_position = l'.position + 1 :=
  ⟨rfl, next_token_rp h⟩

theorem C9_lookahead_invariant_witness :
    next_token (Lexer.new ['a'])
      = some (Token.Ident ['a'], (⟨['a'], 1, 2, '\x00'⟩ : Lexer)) ∧
    ((Lexer.new ['b']).read_position = (Lexer.new ['b']).position + 1 ∧
      (⟨['a'], 1, 2, '\x00'⟩ : Lexer).read_position
        = (⟨['a'], 1, 2, '\x00'⟩ : Lexer).position + 1) := by
  have hev : next_token (Lexer.new ['a'])
      = some (Token.Ident ['a'], (⟨['a'], 1, 2, '\x00'⟩ : Lexer)) := by
    rw [next_token_eqF]
    decide
  exact ⟨hev, C9_lookahead_invariant ['b'] _ _ _ hev⟩

/-- Claim C8: for a fixed input, the token sequence is identical across
runs; two scanners constructed over equal inputs agree at every call
position.  The embedding is a pure function of the state, so this is
definitional determinism. -/
theorem C8_deterministic (i1 i2 : List Char) (h : i1 = i2) (n : Nat) :
    runN (Lexer.new i1) n = runN (Lexer.new i2) n := by
  rw [h]

theorem C8_deterministic_witness :
    "5 < 10 > 5;".toList = "5 < 10 > 5;".toList ∧
    runN (Lexer.new ("5 < 10 > 5;".toList)) 2
      = runN (Lexer.new ("5 < 10 > 5;".toList)) 2 :=
  ⟨rfl, C8_deterministic _ _ rfl 2⟩

/-- Claim C2 counterexample: at the terminal state the EOF arm still runs
the trailing read_char, so position and read_position keep advancing;
successive calls do not leave the cursor fields unchanged. -/
theorem C2_counterexample :
    next_token (Lexer.new [])
      = some (Token.EOF, (⟨[], 1, 2, '\x00'⟩ : Lexer)) ∧
    runN (Lexer.new []) 1
      = some (Token.EOF, (⟨[], 2, 3, '\x00'⟩ : Lexer)) ∧
    (⟨[], 1, 2, '\x00'⟩ : Lexer) ≠ (⟨[], 2, 3, '\x00'⟩ : Lexer) := by
  refine ⟨?_, ?_, by decide⟩
  · rw [next_token_eqF]
    decide
  · simp only [runN_eqF]
    decide

/-- Claim C2 (amended): from the terminal state (sentinel on the cursor,
read_position at or past the byte length) next_token yields EOF, the
cursor character stays the sentinel and the state stays terminal; but the
position and read_position fields each advance by one per call rather
than staying unchanged. -/
theorem C2_eof_terminal (l : Lexer) (h0 : l.ch = '\x00')
    (h1 : byteLen l.input ≤ l.read_position) :
    next_token l = some (Token.EOF, read_char l) ∧
    (read_char l).ch = '\x00' ∧
    byteLen (read_char l).input ≤ (read_char l).read_position ∧
    (read_char l).position = l.read_position ∧
    (read_char l).read_position = l.read_position + 1 ∧
    (read_char l).input = l.input :=
  terminal_step h0 h1

theorem C2_eof_terminal_witness :
    (Lexer.new []).ch = '\x00' ∧
    byteLen (Lexer.new []).input ≤ (Lexer.new []).read_position ∧
    (next_token (Lexer.new []) = some (Token.EOF, read_char (Lexer.new [])) ∧
      (read_char (Lexer.new [])).ch = '\x00' ∧
      byteLen (read_char (Lexer.new [])).input ≤ (read_char (Lexer.new [])).read_position ∧
      (read_char (Lexer.new [])).position = (Lexer.new []).read_position ∧
      (read_char (Lexer.new [])).read_position = (Lexer.new []).read_position + 1 ∧
      (read_char (Lexer.new [])).input = (Lexer.new []).input) :=
  ⟨rfl, by decide, C2_eof_terminal _ rfl (by decide)⟩

/-- Claim C7 counterexample: an input containing a literal NUL character
makes next_token emit EOF mid-input, and the very next call returns a
non-EOF token, so EOF is not persistent. -/
theorem C7_counterexample :
    (next_token (Lexer.new ['\x00', 'a'])).map Prod.fst = some Token.EOF ∧
    (runN (Lexer.new ['\x00', 'a']) 1).map Prod.fst = some (Token.Ident ['a']) ∧
    some (Token.Ident ['a']) ≠ some Token.EOF := by
  refine ⟨?_, ?_, by decide⟩
  · rw [next_token_eqF]
    decide
  · simp only [runN_eqF]
    decide

/-- Claim C7 (amended): once the scanner is in the terminal end-of-input
state (sentinel on the cursor with read_position at or past the byte
length) every subsequent call returns EOF and never panics; an EOF
triggered by an embedded NUL character mid-input is not sticky. -/
theorem C7_eof_sticky (l : Lexer) (h0 : l.ch = '\x00')
    (h1 : byteLen l.input ≤ l.read_position) (n : Nat) :
    (runN l n).map Prod.fst = some Token.EOF := by
  induction n generalizing l with
  | zero =>
    show (next_token l).map Prod.fst = some Token.EOF
    rw [(terminal_step h0 h1).1]
    rfl
  | succ n ih =>
    obtain ⟨hnt, h0', h1', -, -, -⟩ := terminal_step h0 h1
    have hstep : runN l (n + 1) = runN (read_char l) n := by
      show (match next_token l with
        | none => none
        | some (_, l2) => runN l2 n) = runN (read_char l) n
      rw [hnt]
    rw [hstep]
    exact ih _ h0' h1'

theorem C7_eof_sticky_witness :
    (Lexer.new []).ch = '\x00' ∧
    byteLen (Lexer.new []).input ≤ (Lexer.new []).read_position ∧
    (runN (Lexer.new []) 3).map Prod.fst = some Token.EOF :=
  ⟨rfl, by decide, C7_eof_sticky _ rfl (by decide) 3⟩

/-- Claim C1: the spec says arbitrary input, non-ASCII included, never
panics, the only fatal path being i64 overflow.  But on the input with
the two characters Euro sign and less-than, the first call returns
Illegal and the second call panics inside peek_next (unwrap of None),
because read_position counts characters while the guard compares it with
the byte length.  Likewise read_word's byte slicing panics on the
two-character input latin letter a followed by e-acute. -/
theorem C1_nonascii_panic :
    (next_token (Lexer.new ("€<".toList))).map Prod.fst = some Token.Illegal ∧
    runN (Lexer.new ("€<".toList)) 1 = none ∧
    next_token (Lexer.new ("aé".toList)) = none := by
  refine ⟨?_, ?_, ?_⟩
  · rw [next_token_eqF]
    decide
  · simp only [runN_eqF]
    decide
  · rw [next_token_eqF]
    decide

/-- Claim C6 counterexample: on the 19-character digit input whose value
is 2 to the 63rd power the integer parse aborts on the very first call,
and no EOF is produced within input-length-many calls (indices 0 through
19 all panic), contradicting the claimed bound. -/
theorem C6_counterexample :
    (List.range 20).map
        (fun n => (runN (Lexer.new ("9223372036854775808".toList)) n).map Prod.fst)
      = List.replicate 20 none ∧
    ("9223372036854775808".toList).length = 19 := by
  constructor
  · simp only [runN_eqF]
    decide
  · decide

lemma run_eof_aux : ∀ (k : Nat) (l : Lexer), Reach l → l.input.length ≤ l.position + k →
    ∃ n, n ≤ k ∧
      ((runN l n).map Prod.fst = some Token.EOF ∨ runN l n = none) := by
  intro k
  induction k with
  | zero =>
    intro l hr hlen
    refine ⟨0, Nat.le_refl _, Or.inl ?_⟩
    show (next_token l).map Prod.fst = some Token.EOF
    rw [eof_emit (hr.2 (by omega))]
    rfl
  | succ k ih =>
    intro l hr hlen
    by_cases hend : l.input.length ≤ l.position
    · refine ⟨0, by omega, Or.inl ?_⟩
      show (next_token l).map Prod.fst = some Token.EOF
      rw [eof_emit (hr.2 hend)]
      rfl
    · rcases hnt : next_token l with _ | tl
      · exact ⟨0, by omega, Or.inr hnt⟩
      · obtain ⟨t, l'⟩ := tl
        obtain ⟨hr', hpos', hinp'⟩ := next_token_step hr hnt
        obtain ⟨n, hn, hprop⟩ := ih l' hr' (by rw [hinp']; omega)
        refine ⟨n + 1, by omega, ?_⟩
        have hstep : runN l (n + 1) = runN l' n := by
          show (match next_token l with
            | none => none
            | some (_, l2) => runN l2 n) = runN l' n
          rw [hnt]
        rw [hstep]
        exact hprop

/-- Claim C6 (amended): for every finite input, within input-length-many
calls counted from zero the scanner either first produces EOF or aborts
(the panic paths: integer overflow or the byte-versus-character index
confusion on non-ASCII input); it can never run longer, because every
successful call advances the position by at least one character. -/
theorem C6_progress_bound (input : List Char) :
    ∃ n, n ≤ input.length ∧
      ((runN (Lexer.new input) n).map Prod.fst = some Token.EOF ∨
        runN (Lexer.new input) n = none) := by
  have h := run_eof_aux input.length (Lexer.new input) (reach_new input)
    (by show input.length ≤ 0 + input.length; omega)
  exact h

/-- Claim C10: for every input whose first non-whitespace character is an
underscore, next_token returns Illegal and advances the cursor by exactly
one character; an underscore may continue an identifier run (isWordChar)
but never starts one (is_alphabetic gates the read_word entry). -/
theorem C10_underscore_illegal (input : List Char)
    (h : (skip_whitespace (Lexer.new input)).ch = '_') :
    next_token (Lexer.new input)
      = some (Token.Illegal, read_char (skip_whitespace (Lexer.new input))) ∧
    (read_char (skip_whitespace (Lexer.new input))).position
      = (skip_whitespace (Lexer.new input)).position + 1 ∧
    isWordChar '_' = true ∧ isRustAlphabetic '_' = false := by
  have hrs := (loop_reach isRustWhitespace (by decide) skip_whitespace
    skip_whitespace_eq (Lexer.new input) (reach_new input)).1
  refine ⟨?_, ?_, by decide, by decide⟩
  · simp only [next_token]
    rw [if_neg (by rw [h]; decide), if_neg (by rw [h]; decide),
      if_neg (by rw [h]; decide), if_neg (by rw [h]; decide),
      if_neg (by rw [h]; decide), if_neg (by rw [h]; decide),
      if_neg (by rw [h]; decide), if_neg (by rw [h]; decide),
      if_neg (by rw [h]; decide), if_neg (by rw [h]; decide),
      if_neg (by rw [h]; decide), if_neg (by rw [h]; decide),
      if_neg (by rw [h]; decide), if_neg (by rw [h]; decide),
      if_neg (by rw [h]; decide), if_neg (by rw [h]; decide),
      if_neg (by rw [h]; decide)]
  · have e : (read_char (skip_whitespace (Lexer.new input))).position
        = (skip_whitespace (Lexer.new input)).read_position := rfl
    rw [e, hrs.1]

theorem C10_underscore_illegal_witness :
    (skip_whitespace (Lexer.new ("  _x".toList))).ch = '_' ∧
    (next_token (Lexer.new ("  _x".toList))
        = some (Token.Illegal, read_char (skip_whitespace (Lexer.new ("  _x".toList)))) ∧
      (read_char (skip_whitespace (Lexer.new ("  _x".toList)))).position
        = (skip_whitespace (Lexer.new ("  _x".toList))).position + 1 ∧
      isWordChar '_' = true ∧ isRustAlphabetic '_' = false) := by
  have hch : (skip_whitespace (Lexer.new ("  _x".toList))).ch = '_' := by
    rw [skip_whitespace_eqF]
    decide
  exact ⟨hch, C10_underscore_illegal _ hch⟩

/-- From the spec: the two-character operator tokens produced when one of
the four tie-break characters is immediately followed by an equals
sign. -/
def twoCharToken (c : Char) : Token :=
  if c = '<' then Token.LTE else if c = '>' then Token.GTE
  else if c = '!' then Token.NotEq else Token.Eq

/-- From the spec: the one-character operator tokens produced when one of
the four tie-break characters is not followed by an equals sign. -/
def oneCharToken (c : Char) : Token :=
  if c = '<' then Token.LT else if c = '>' then Token.GT
  else if c = '!' then Token.Bang else Token.Assign

lemma read_char2_spec {l : Lexer} (hInv : Inv l) :
    read_char (read_char l) =
      { input := l.input, position := l.position + 2,
        read_position := l.position + 3, ch := chAt l.input (l.position + 2) } := by
  rw [read_char_spec (inv_read_char hInv), read_char_spec hInv]

/-- Claim C4 counterexample: on the two-character input section sign
followed by less-than, the second call finds the cursor on the less-than
character with no following character; the claim requires the
one-character token LT, but the code panics in peek_next. -/
theorem C4_counterexample :
    (next_token (Lexer.new ("§<".toList))).map (fun tl => tl.2.ch) = some '<' ∧
    (next_token (Lexer.new ("§<".toList))).map Prod.fst = some Token.Illegal ∧
    runN (Lexer.new ("§<".toList)) 1 = none := by
  refine ⟨?_, ?_, ?_⟩
  · rw [next_token_eqF]
    decide
  · rw [next_token_eqF]
    decide
  · simp only [runN_eqF]
    decide

/-- Claim C4 (amended): on a consistent ASCII state whose cursor holds
one of the four tie-break characters, if the following character is an
equals sign both characters are consumed and the two-character token is
returned, otherwise exactly one character is consumed and the
one-character token is returned; the peek itself carries no state
change (peek_next is a plain function of the state).  On byte-
inconsistent (non-ASCII) states the peek can instead panic, see the
counterexample. -/
theorem C4_two_char_tie_break (l : Lexer) (hInv : Inv l)
    (hc : l.ch = '<' ∨ l.ch = '>' ∨ l.ch = '!' ∨ l.ch = '=') :
    peek_next l = some (chAt l.input (l.position + 1)) ∧
    (chAt l.input (l.position + 1) = '=' →
      next_token l = some (twoCharToken l.ch,
        { input := l.input, position := l.position + 2, read_position := l.position + 3,
          ch := chAt l.input (l.position + 2) })) ∧
    (chAt l.input (l.position + 1) ≠ '=' →
      next_token l = some (oneCharToken l.ch,
        { input := l.input, position := l.position + 1, read_position := l.position + 2,
          ch := chAt l.input (l.position + 1) })) := by
  have hpk := peek_spec hInv
  refine ⟨hpk, ?_, ?_⟩
  · intro heq
    rcases hc with hch | hch | hch | hch
    · simp only [next_token]
      rw [skip_noop (by rw [hch]; decide)]
      rw [if_neg (by rw [hch]; decide), if_neg (by rw [hch]; decide),
        if_neg (by rw [hch]; decide), if_neg (by rw [hch]; decide),
        if_neg (by rw [hch]; decide), if_neg (by rw [hch]; decide),
        if_neg (by rw [hch]; decide), if_neg (by rw [hch]; decide),
        if_neg (by rw [hch]; decide), if_neg (by rw [hch]; decide),
        if_neg (by rw [hch]; decide), if_pos hch, hpk]
      have hred : (match some (chAt l.input (l.position + 1)) with
          | none => none
          | some c2 =>
            if c2 = '=' then some (Token.LTE, read_char (read_char l))
            else some (Token.LT, read_char l))
          = (if chAt l.input (l.position + 1) = '='
            then some (Token.LTE, read_char (read_char l))
            else some (Token.LT, read_char l)) := rfl
      rw [hred, if_pos heq, read_char2_spec hInv, hch]
      unfold twoCharToken
      rw [if_pos rfl]
    · simp only [next_token]
      rw [skip_noop (by rw [hch]; decide)]
      rw [if_neg (by rw [hch]; decide), if_neg (by rw [hch]; decide),
        if_neg (by rw [hch]; decide), if_neg (by rw [hch]; decide),
        if_neg (by rw [hch]; decide), if_neg (by rw [hch]; decide),
        if_neg (by rw [hch]; decide), if_neg (by rw [hch]; decide),
        if_neg (by rw [hch]; decide), if_neg (by rw [hch]; decide),
        if_pos hch, hpk]
      have hred : (match some (chAt l.input (l.position + 1)) with
          | none => none
          | some c2 =>
            if c2 = '=' then some (Token.GTE, read_char (read_char l))
            else some (Token.GT, read_char l))
          = (if chAt l.input (l.position + 1) = '='
            then some (Token.GTE, read_char (read_char l))
            else some (Token.GT, read_char l)) := rfl
      rw [hred, if_pos heq, read_char2_spec hInv, hch]
      unfold twoCharToken
      rw [if_neg (by decide), if_pos rfl]
    · simp only [next_token]
      rw [skip_noop (by rw [hch]; decide)]
      rw [if_neg (by rw [hch]; decide), if_neg (by rw [hch]; decide),
        if_neg (by rw [hch]; decide), if_neg (by rw [hch]; decide),
        if_neg (by rw [hch]; decide), if_neg (by rw [hch]; decide),
        if_neg (by rw [hch]; decide), if_neg (by rw [hch]; decide),
        if_neg (by rw [hch]; decide), if_neg (by rw [hch]; decide),
        if_neg (by rw [hch]; decide), if_neg (by rw [hch]; decide),
        if_pos hch, hpk]
      have hred : (match some (chAt l.input (l.position + 1)) with
          | none => none
          | some c2 =>
            if c2 = '=' then some (Token.NotEq, read_char (read_char l))
            else some (Token.Bang, read_char l))
          = (if chAt l.input (l.position + 1) = '='
            then some (Token.NotEq, read_char (read_char l))
            else some (Token.Bang, read_char l)) := rfl
      rw [hred, if_pos heq, read_char2_spec hInv, hch]
      unfold twoCharToken
      rw [if_neg (by decide), if_neg (by decide), if_pos rfl]
    · simp only [next_token]
      rw [skip_noop (by rw [hch]; decide)]
      rw [if_neg (by rw [hch]; decide), if_neg (by rw [hch]; decide),
        if_neg (by rw [hch]; decide), if_neg (by rw [hch]; decide),
        if_neg (by rw [hch]; decide), if_neg (by rw [hch]; decide),
        if_neg (by rw [hch]; decide), if_neg (by rw [hch]; decide),
        if_neg (by rw [hch]; decide), if_neg (by rw [hch]; decide),
        if_neg (by rw [hch]; decide), if_neg (by rw [hch]; decide),
        if_neg (by rw [hch]; decide), if_pos hch, hpk]
      have hred : (match some (chAt l.input (l.position + 1)) with
          | none => none
          | some c2 =>
            if c2 = '=' then some (Token.Eq, read_char (read_char l))
            else some (Token.Assign, read_char l))
          = (if chAt l.input (l.position + 1) = '='
            then some (Token.Eq, read_char (read_char l))
            else some (Token.Assign, read_char l)) := rfl
      rw [hred, if_pos heq, read_char2_spec hInv, hch]
      unfold twoCharToken
      rw [if_neg (by decide), if_neg (by decide), if_neg (by decide)]
  · intro hne
    rcases hc with hch | hch | hch | hch
    · simp only [next_token]
      rw [skip_noop (by rw [hch]; decide)]
      rw [if_neg (by rw [hch]; decide), if_neg (by rw [hch]; decide),
        if_neg (by rw [hch]; decide), if_neg (by rw [hch]; decide),
        if_neg (by rw [hch]; decide), if_neg (by rw [hch]; decide),
        if_neg (by rw [hch]; decide), if_neg (by rw [hch]; decide),
        if_neg (by rw [hch]; decide), if_neg (by rw [hch]; decide),
        if_neg (by rw [hch]; decide), if_pos hch, hpk]
      have hred : (match some (chAt l.input (l.position + 1)) with
          | none => none
          | some c2 =>
            if c2 = '=' then some (Token.LTE, read_char (read_char l))
            else some (Token.LT, read_char l))
          = (if chAt l.input (l.position + 1) = '='
            then some (Token.LTE, read_char (read_char l))
            else some (Token.LT, read_char l)) := rfl
      rw [hred, if_neg hne, read_char_spec hInv, hch]
      unfold oneCharToken
      rw [if_pos rfl]
    · simp only [next_token]
      rw [skip_noop (by rw [hch]; decide)]
      rw [if_neg (by rw [hch]; decide), if_neg (by rw [hch]; decide),
        if_neg (by rw [hch]; decide), if_neg (by rw [hch]; decide),
        if_neg (by rw [hch]; decide), if_neg (by rw [hch]; decide),
        if_neg (by rw [hch]; decide), if_neg (by rw [hch]; decide),
        if_neg (by rw [hch]; decide), if_neg (by rw [hch]; decide),
        if_pos hch, hpk]
      have hred : (match some (chAt l.input (l.position + 1)) with
          | none => none
          | some c2 =>
            if c2 = '=' then some (Token.GTE, read_char (read_char l))
            else some (Token.GT, read_char l))
          = (if chAt l.input (l.position + 1) = '='
            then some (Token.GTE, read_char (read_char l))
            else some (Token.GT, read_char l)) := rfl
      rw [hred, if_neg hne, read_char_spec hInv, hch]
      unfold oneCharToken
      rw [if_neg (by decide), if_pos rfl]
    · simp only [next_token]
      rw [skip_noop (by rw [hch]; decide)]
      rw [if_neg (by rw [hch]; decide), if_neg (by rw [hch]; decide),
        if_neg (by rw [hch]; decide), if_neg (by rw [hch]; decide),
        if_neg (by rw [hch]; decide), if_neg (by rw [hch]; decide),
        if_neg (by rw [hch]; decide), if_neg (by rw [hch]; decide),
        if_neg (by rw [hch]; decide), if_neg (by rw [hch]; decide),
        if_neg (by rw [hch]; decide), if_neg (by rw [hch]; decide),
        if_pos hch, hpk]
      have hred : (match some (chAt l.input (l.position + 1)) with
          | none => none
          | some c2 =>
            if c2 = '=' then some (Token.NotEq, read_char (read_char l))
            else some (Token.Bang, read_char l))
          = (if chAt l.input (l.position + 1) = '='
            then some (Token.NotEq, read_char (read_char l))
            else some (Token.Bang, read_char l)) := rfl
      rw [hred, if_neg hne, read_char_spec hInv, hch]
      unfold oneCharToken
      rw [if_neg (by decide), if_neg (by decide), if_pos rfl]
    · simp only [next_token]
      rw [skip_noop (by rw [hch]; decide)]
      rw [if_neg (by rw [hch]; decide), if_neg (by rw [hch]; decide),
        if_neg (by rw [hch]; decide), if_neg (by rw [hch]; decide),
        if_neg (by rw [hch]; decide), if_neg (by rw [hch]; decide),
        if_neg (by rw [hch]; decide), if_neg (by rw [hch]; decide),
        if_neg (by rw [hch]; decide), if_neg (by rw [hch]; decide),
        if_neg (by rw [hch]; decide), if_neg (by rw [hch]; decide),
        if_neg (by rw [hch]; decide), if_pos hch, hpk]
      have hred : (match some (chAt l.input (l.position + 1)) with
          | none => none
          | some c2 =>
            if c2 = '=' then some (Token.Eq, read_char (read_char l))
            else some (Token.Assign, read_char l))
          = (if chAt l.input (l.position + 1) = '='
            then some (Token.Eq, read_char (read_char l))
            else some (Token.Assign, read_char l)) := rfl
      rw [hred, if_neg hne, read_char_spec hInv, hch]
      unfold oneCharToken
      rw [if_neg (by decide), if_neg (by decide), if_neg (by decide)]

theorem C4_two_char_tie_break_witness :
    Inv (Lexer.new ("<=".toList)) ∧
    ((Lexer.new ("<=".toList)).ch = '<' ∨ (Lexer.new ("<=".toList)).ch = '>' ∨
      (Lexer.new ("<=".toList)).ch = '!' ∨ (Lexer.new ("<=".toList)).ch = '=') ∧
    (peek_next (Lexer.new ("<=".toList))
        = some (chAt (Lexer.new ("<=".toList)).input
            ((Lexer.new ("<=".toList)).position + 1)) ∧
      (chAt (Lexer.new ("<=".toList)).input ((Lexer.new ("<=".toList)).position + 1) = '=' →
        next_token (Lexer.new ("<=".toList))
          = some (twoCharToken (Lexer.new ("<=".toList)).ch,
            ⟨(Lexer.new ("<=".toList)).input, (Lexer.new ("<=".toList)).position + 2,
              (Lexer.new ("<=".toList)).position + 3,
              chAt (Lexer.new ("<=".toList)).input
                ((Lexer.new ("<=".toList)).position + 2)⟩)) ∧
      (chAt (Lexer.new ("<=".toList)).input ((Lexer.new ("<=".toList)).position + 1) ≠ '=' →
        next_token (Lexer.new ("<=".toList))
          = some (oneCharToken (Lexer.new ("<=".toList)).ch,
            ⟨(Lexer.new ("<=".toList)).input, (Lexer.new ("<=".toList)).position + 1,
              (Lexer.new ("<=".toList)).position + 2,
              chAt (Lexer.new ("<=".toList)).input
                ((Lexer.new ("<=".toList)).position + 1)⟩))) :=
  ⟨by decide, by decide, C4_two_char_tie_break _ (by decide) (by decide)⟩

/-- Claim C3 counterexample: on the input of two e-acute characters the
cursor character is alphabetic and the maximal word run is both
characters, but next_token returns Ident carrying only the first one,
because the slice bounds count characters while slicing is by bytes. -/
theorem C3_counterexample :
    isRustAlphabetic (Lexer.new ("éé".toList)).ch = true ∧
    List.takeWhile isWordChar ("éé".toList) = "éé".toList ∧
    (next_token (Lexer.new ("éé".toList))).map Prod.fst
      = some (Token.Ident ("é".toList)) ∧
    "é".toList ≠ "éé".toList := by
  refine ⟨by decide, by decide, ?_, by decide⟩
  rw [next_token_eqF]
  decide

/-- Claim C3 (amended): on a consistent ASCII state whose cursor
character is alphabetic, next_token consumes exactly the maximal run of
alphabetic characters and underscores; each of the seven keyword
spellings yields its keyword token (never Ident), and any other run
yields Ident carrying exactly the run. -/
theorem C3_keyword_ident_partition (l : Lexer) (hInv : Inv l)
    (ha : isRustAlphabetic l.ch = true) :
    ∃ t : Token,
      next_token l = some (t,
        { input := l.input,
          position := l.position + ((l.input.drop l.position).takeWhile isWordChar).length,
          read_position :=
            l.position + ((l.input.drop l.position).takeWhile isWordChar).length + 1,
          ch := chAt l.input
            (l.position + ((l.input.drop l.position).takeWhile isWordChar).length) }) ∧
      ((l.input.drop l.position).takeWhile isWordChar = "fn".toList → t = Token.Function) ∧
      ((l.input.drop l.position).takeWhile isWordChar = "let".toList → t = Token.Let) ∧
      ((l.input.drop l.position).takeWhile isWordChar = "true".toList → t = Token.True) ∧
      ((l.input.drop l.position).takeWhile isWordChar = "false".toList → t = Token.False) ∧
      ((l.input.drop l.position).takeWhile isWordChar = "if".toList → t = Token.If) ∧
      ((l.input.drop l.position).takeWhile isWordChar = "else".toList → t = Token.Else) ∧
      ((l.input.drop l.position).takeWhile isWordChar = "return".toList → t = Token.Return) ∧
      ((l.input.drop l.position).takeWhile isWordChar ∉
          ["fn".toList, "let".toList, "true".toList, "false".toList, "if".toList,
            "else".toList, "return".toList] →
        t = Token.Ident ((l.input.drop l.position).takeWhile isWordChar)) := by
  refine ⟨keywordOrIdent ((l.input.drop l.position).takeWhile isWordChar),
    ?_, ?_, ?_, ?_, ?_, ?_, ?_, ?_, ?_⟩
  · rw [next_token_word hInv ha, read_word_run hInv ha]
  · intro he
    rw [he]
    unfold keywordOrIdent
    rw [if_pos rfl]
  · intro he
    rw [he]
    unfold keywordOrIdent
    rw [if_neg (by decide), if_pos rfl]
  · intro he
    rw [he]
    unfold keywordOrIdent
    rw [if_neg (by decide), if_neg (by decide), if_pos rfl]
  · intro he
    rw [he]
    unfold keywordOrIdent
    rw [if_neg (by decide), if_neg (by decide), if_neg (by decide), if_neg (by decide),
      if_neg (by decide), if_pos rfl]
  · intro he
    rw [he]
    unfold keywordOrIdent
    rw [if_neg (by decide), if_neg (by decide), if_neg (by decide), if_pos rfl]
  · intro he
    rw [he]
    unfold keywordOrIdent
    rw [if_neg (by decide), if_neg (by decide), if_neg (by decide), if_neg (by decide),
      if_pos rfl]
  · intro he
    rw [he]
    unfold keywordOrIdent
    rw [if_neg (by decide), if_neg (by decide), if_neg (by decide), if_neg (by decide),
      if_neg (by decide), if_neg (by decide), if_pos rfl]
  · intro hnot
    simp only [List.mem_cons, List.not_mem_nil, or_false, not_or] at hnot
    obtain ⟨u1, u2, u3, u4, u5, u6, u7⟩ := hnot
    unfold keywordOrIdent
    rw [if_neg u1, if_neg u2, if_neg u3, if_neg u5, if_neg u6, if_neg u4, if_neg u7]

theorem C3_keyword_ident_partition_witness :
    Inv (Lexer.new ("foo".toList)) ∧
    isRustAlphabetic (Lexer.new ("foo".toList)).ch = true ∧
    (∃ t : Token,
      next_token (Lexer.new ("foo".toList)) = some (t,
        { input := (Lexer.new ("foo".toList)).input,
          position := (Lexer.new ("foo".toList)).position +
            (((Lexer.new ("foo".toList)).input.drop
              (Lexer.new ("foo".toList)).position).takeWhile isWordChar).length,
          read_position := (Lexer.new ("foo".toList)).position +
            (((Lexer.new ("foo".toList)).input.drop
              (Lexer.new ("foo".toList)).position).takeWhile isWordChar).length + 1,
          ch := chAt (Lexer.new ("foo".toList)).input
            ((Lexer.new ("foo".toList)).position +
              (((Lexer.new ("foo".toList)).input.drop
                (Lexer.new ("foo".toList)).position).takeWhile isWordChar).length) }) ∧
      (((Lexer.new ("foo".toList)).input.drop
          (Lexer.new ("foo".toList)).position).takeWhile isWordChar = "fn".toList →
        t = Token.Function) ∧
      (((Lexer.new ("foo".toList)).input.drop
          (Lexer.new ("foo".toList)).position).takeWhile isWordChar = "let".toList →
        t = Token.Let) ∧
      (((Lexer.new ("foo".toList)).input.drop
          (Lexer.new ("foo".toList)).position).takeWhile isWordChar = "true".toList →
        t = Token.True) ∧
      (((Lexer.new ("foo".toList)).input.drop
          (Lexer.new ("foo".toList)).position).takeWhile isWordChar = "false".toList →
        t = Token.False) ∧
      (((Lexer.new ("foo".toList)).input.drop
          (Lexer.new ("foo".toList)).position).takeWhile isWordChar = "if".toList →
        t = Token.If) ∧
      (((Lexer.new ("foo".toList)).input.drop
          (Lexer.new ("foo".toList)).position).takeWhile isWordChar = "else".toList →
        t = Token.Else) ∧
      (((Lexer.new ("foo".toList)).input.drop
          (Lexer.new ("foo".toList)).position).takeWhile isWordChar = "return".toList →
        t = Token.Return) ∧
      (((Lexer.new ("foo".toList)).input.drop
          (Lexer.new ("foo".toList)).position).takeWhile isWordChar ∉
          ["fn".toList, "let".toList, "true".toList, "false".toList, "if".toList,
            "else".toList, "return".toList] →
        t = Token.Ident (((Lexer.new ("foo".toList)).input.drop
          (Lexer.new ("foo".toList)).position).takeWhile isWordChar))) :=
  ⟨by decide, by decide, C3_keyword_ident_partition _ (by decide) (by decide)⟩

lemma digitsVal_ofDigits (s : List Char) :
    digitsVal s = Nat.ofDigits 10 ((s.map (fun c => c.toNat - 0x30)).reverse) := by
  have H : ∀ (s : List Char) (a : Nat),
      s.foldl (fun a c => a * 10 + (c.toNat - 0x30)) a
        = a * 10 ^ s.length + Nat.ofDigits 10 ((s.map (fun c => c.toNat - 0x30)).reverse) := by
    intro s
    induction s with
    | nil =>
      intro a
      simp [Nat.ofDigits]
    | cons c t ih =>
      intro a
      show t.foldl _ (a * 10 + (c.toNat - 0x30)) = _
      rw [ih (a * 10 + (c.toNat - 0x30))]
      rw [List.map_cons, List.reverse_cons, Nat.ofDigits_append]
      rw [Nat.ofDigits_singleton, List.length_reverse, List.length_map, List.length_cons]
      ring
  have h0 := H s 0
  unfold digitsVal
  rw [h0]
  ring

/-- Claim C5 counterexample: on the two-character input section sign
followed by the digit five, the second call has its cursor on the maximal
digit run "5", whose value fits i64, but the byte slicing of the
digit run panics instead of producing Int 5. -/
theorem C5_counterexample :
    (next_token (Lexer.new ("§5".toList))).map (fun tl => tl.2.ch) = some '5' ∧
    isDigit10 '5' = true ∧
    runN (Lexer.new ("§5".toList)) 1 = none := by
  refine ⟨?_, by decide, ?_⟩
  · rw [next_token_eqF]
    decide
  · simp only [runN_eqF]
    decide

/-- Claim C5 (amended): on a consistent ASCII state whose cursor is on a
decimal digit, if the base-10 value of the maximal digit run fits the
64-bit signed range then next_token returns Int of exactly that value,
the cursor advances by exactly the run length, and the value is
non-negative. -/
theorem C5_int_literal (l : Lexer) (hInv : Inv l) (hd : isDigit10 l.ch = true)
    (hfit : Nat.ofDigits 10
        ((((l.input.drop l.position).takeWhile isDigit10).map
          (fun c => c.toNat - 0x30)).reverse) ≤ 9223372036854775807) :
    next_token l = some (
      Token.Int ((Nat.ofDigits 10
        ((((l.input.drop l.position).takeWhile isDigit10).map
          (fun c => c.toNat - 0x30)).reverse) : Nat)),
      { input := l.input,
        position := l.position + ((l.input.drop l.position).takeWhile isDigit10).length,
        read_position :=
          l.position + ((l.input.drop l.position).takeWhile isDigit10).length + 1,
        ch := chAt l.input
          (l.position + ((l.input.drop l.position).takeWhile isDigit10).length) }) ∧
    0 ≤ ((Nat.ofDigits 10 ((((l.input.drop l.position).takeWhile isDigit10).map
      (fun c => c.toNat - 0x30)).reverse) : Nat) : Int) := by
  have hfit2 : digitsVal ((l.input.drop l.position).takeWhile isDigit10)
      ≤ 9223372036854775807 := by
    rw [digitsVal_ofDigits]
    exact hfit
  constructor
  · rw [next_token_int hInv hd, read_int_run hInv hd, if_pos hfit2, digitsVal_ofDigits]
  · exact Int.natCast_nonneg _

theorem C5_int_literal_witness :
    Inv (Lexer.new ("42;".toList)) ∧
    isDigit10 (Lexer.new ("42;".toList)).ch = true ∧
    Nat.ofDigits 10
        (((((Lexer.new ("42;".toList)).input.drop
          (Lexer.new ("42;".toList)).position).takeWhile isDigit10).map
          (fun c => c.toNat - 0x30)).reverse) ≤ 9223372036854775807 ∧
    (next_token (Lexer.new ("42;".toList)) = some (
      Token.Int ((Nat.ofDigits 10
        (((((Lexer.new ("42;".toList)).input.drop
          (Lexer.new ("42;".toList)).position).takeWhile isDigit10).map
          (fun c => c.toNat - 0x30)).reverse) : Nat)),
      { input := (Lexer.new ("42;".toList)).input,
        position := (Lexer.new ("42;".toList)).position +
          (((Lexer.new ("42;".toList)).input.drop
            (Lexer.new ("42;".toList)).position).takeWhile isDigit10).length,
        read_position := (Lexer.new ("42;".toList)).position +
          (((Lexer.new ("42;".toList)).input.drop
            (Lexer.new ("42;".toList)).position).takeWhile isDigit10).length + 1,
        ch := chAt (Lexer.new ("42;".toList)).input
          ((Lexer.new ("42;".toList)).position +
            (((Lexer.new ("42;".toList)).input.drop
              (Lexer.new ("42;".toList)).position).takeWhile isDigit10).length) }) ∧
    0 ≤ ((Nat.ofDigits 10 (((((Lexer.new ("42;".toList)).input.drop
      (Lexer.new ("42;".toList)).position).takeWhile isDigit10).map
      (fun c => c.toNat - 0x30)).reverse) : Nat) : Int)) :=
  ⟨by decide, by decide, by decide, C5_int_literal _ (by decide) (by decide) (by decide)⟩

end Zero2Prod
